import Mathlib

/-
Verification of the xangi process-based execution engine.

Shallow embedding of:
- the merge utility `mergeTexts` (src/agent-runner.ts);
- the worker session `PersistentRunner` (src/persistent-runner.ts),
  modelled as a state record plus explicit event steps (the single
  cooperative event loop is modelled by a list of events applied in
  order, with promise settlements collected as outputs);
- the session pool `RunnerManager` (src/runner-manager.ts),
  modelled as an association list keyed by channel id (a JS Map
  iterates in insertion order; updates mutate entries in place).

Timestamps (Date.now()) are passed to each step explicitly as natural
numbers.
-/

namespace Xangi

/-! ## Merge utility (src/agent-runner.ts, mergeTexts) -/

/-- Embeds the JavaScript test `s.endsWith(t)`: the last `t.length`
characters of `s` equal `t`. -/
def strEndsWith (s t : String) : Bool :=
  decide (t.length ≤ s.length ∧ s.data.drop (s.length - t.length) = t.data)

/-- Embeds `mergeTexts` from src/agent-runner.ts.  In JavaScript the
guards `!result` and `!streamed` test for the empty string. -/
def mergeTexts (streamed result : String) : String :=
  if result = "" then streamed
  else if streamed = "" then result
  else if strEndsWith streamed result then streamed
  else if strEndsWith result streamed then result
  else streamed ++ "\n" ++ result

/-- Modelled from the spec: the case rule for `merge(streamed, final)`
stated in section 4.1 of the spec, used as the comparison point for the
refinement claim C1. -/
def mergeSpecRule (streamed final : String) : String :=
  if final = "" then streamed
  else if streamed = "" then final
  else if strEndsWith streamed final then streamed
  else if strEndsWith final streamed then final
  else streamed ++ "\n" ++ final

theorem strEndsWith_self (s : String) : strEndsWith s s = true := by
  simp [strEndsWith]

/-- C1: mergeTexts follows the case rule of the spec, and its result is
always one of streamed, final, or streamed ++ "\n" ++ final. -/
theorem mergeTexts_follows_spec_rule (s r : String) :
    mergeTexts s r = mergeSpecRule s r ∧
    (mergeTexts s r = s ∨ mergeTexts s r = r ∨ mergeTexts s r = s ++ "\n" ++ r) := by
  refine ⟨rfl, ?_⟩
  unfold mergeTexts
  split
  · exact Or.inl rfl
  · split
    · exact Or.inr (Or.inl rfl)
    · split
      · exact Or.inl rfl
      · split
        · exact Or.inr (Or.inl rfl)
        · exact Or.inr (Or.inr rfl)

/-- C8: mergeTexts is idempotent. -/
theorem mergeTexts_idem (s : String) : mergeTexts s s = s := by
  by_cases h : s = ""
  · simp [mergeTexts, h]
  · simp [mergeTexts, h, strEndsWith_self]

/-! ## Worker session (src/persistent-runner.ts, PersistentRunner)

The class is embedded as a state record.  Requests are numbered in
enqueue order by `nextId`; a settled promise is recorded as a
`Settlement` output of the step that settles it.  The `process` handle
and the `processAlive` flag of the source are set in lockstep at every
site, so a single boolean `processAlive` represents both. -/

def MAX_CRASHES : Nat := 3

def CRASH_WINDOW_MS : Nat := 60000

/-- Error kinds used to reject a request promise (section 7 taxonomy). -/
inductive ErrKind where
  | circuitOpen
  | processExit (code : Int)
  | timedOut
  | cancelled
  | upstream (msg : String)
  | shutdownErr
  deriving Repr, DecidableEq

/-- Embeds QueueItem: the prompt plus an identity for its promise. -/
structure QueueItem where
  id : Nat
  prompt : String
  deriving Repr, DecidableEq

inductive Outcome where
  | resolved (text : String) (sessionId : String)
  | rejected (e : ErrKind)
  deriving Repr, DecidableEq

/-- One settled promise: which request, and how it settled. -/
structure Settlement where
  id : Nat
  outcome : Outcome
  deriving Repr, DecidableEq

/-- Embeds the mutable fields of PersistentRunner. -/
structure Runner where
  processAlive : Bool
  queue : List QueueItem
  currentItem : Option QueueItem
  buffer : String
  sessionId : String
  fullText : String
  shuttingDown : Bool
  cancelling : Bool
  crashCount : Nat
  lastCrashTime : Nat
  nextId : Nat
  deriving Repr, DecidableEq

def initialRunner : Runner where
  processAlive := false
  queue := []
  currentItem := none
  buffer := ""
  sessionId := ""
  fullText := ""
  shuttingDown := false
  cancelling := false
  crashCount := 0
  lastCrashTime := 0
  nextId := 0

/-- Embeds ensureProcess: reuse a live process; otherwise check the
circuit breaker (throwing, here `Except.error`, while open; resetting
the crash counter once the cooldown has elapsed) and spawn. -/
def ensureProcess (now : Nat) (r : Runner) : Except Unit Runner :=
  if r.processAlive then .ok r
  else if MAX_CRASHES ≤ r.crashCount then
    if now - r.lastCrashTime < CRASH_WINDOW_MS then .error ()
    else .ok { r with crashCount := 0, processAlive := true }
  else .ok { r with processAlive := true }

/-- Embeds processNext: promote the queue head to currentItem, clear
the accumulator, ensure a process and write the request line.  The
boolean records whether ensureProcess threw (circuit open); the source
mutations made before the throw (currentItem set, queue shifted)
persist, and the caller decides which promise the exception rejects. -/
def processNext (now : Nat) (r : Runner) : Runner × Bool :=
  match r.currentItem with
  | some _ => (r, false)
  | none =>
    match r.queue with
    | [] => (r, false)
    | item :: rest =>
      let r1 : Runner := { r with currentItem := some item, queue := rest, fullText := "" }
      match ensureProcess now r1 with
      | .ok r2 => (r2, false)
      | .error _ => (r1, true)

/-- Embeds PersistentRunner.run: push onto the queue, then processNext.
When processNext throws (circuit open), the exception propagates out of
the promise executor and rejects the promise of the request being
pushed. -/
def Runner.run (now : Nat) (prompt : String) (r : Runner) : Runner × List Settlement :=
  let item : QueueItem := ⟨r.nextId, prompt⟩
  let r1 : Runner := { r with queue := r.queue ++ [item], nextId := r.nextId + 1 }
  let pn := processNext now r1
  if pn.2 then (pn.1, [⟨item.id, .rejected .circuitOpen⟩]) else (pn.1, [])

/-- Embeds PersistentRunner.runStream: identical queue behaviour to
run; the streaming callbacks do not affect the session state. -/
def Runner.runStream (now : Nat) (prompt : String) (r : Runner) : Runner × List Settlement :=
  let item : QueueItem := ⟨r.nextId, prompt⟩
  let r1 : Runner := { r with queue := r.queue ++ [item], nextId := r.nextId + 1 }
  let pn := processNext now r1
  if pn.2 then (pn.1, [⟨item.id, .rejected .circuitOpen⟩]) else (pn.1, [])

/-- Embeds the system/init arm of handleJsonMessage: a truthy
session_id is stored. -/
def handleSystemInit (sid : String) (r : Runner) : Runner :=
  if sid = "" then r else { r with sessionId := sid }

/-- Embeds the assistant arm of handleJsonMessage for one text block:
a truthy text is appended to the accumulator. -/
def handleAssistantText (t : String) (r : Runner) : Runner :=
  if t = "" then r else { r with fullText := r.fullText ++ t }

/-- Embeds the result arm of handleJsonMessage: store a truthy
session_id; on error reject the current promise with the result field,
otherwise merge the accumulator with a truthy result field and resolve;
then clear currentItem and the accumulator and advance the queue. -/
def handleResult (now : Nat) (sid : Option String) (isErr : Bool) (res : String)
    (r : Runner) : Runner × List Settlement :=
  let r1 : Runner :=
    match sid with
    | some s => if s = "" then r else { r with sessionId := s }
    | none => r
  if isErr then
    let outs : List Settlement :=
      match r1.currentItem with
      | some item => [⟨item.id, .rejected (.upstream (if res = "" then "Unknown error" else res))⟩]
      | none => []
    ((processNext now { r1 with currentItem := none, fullText := "" }).1, outs)
  else
    let full := if res = "" then r1.fullText else mergeTexts r1.fullText res
    let outs : List Settlement :=
      match r1.currentItem with
      | some item => [⟨item.id, .resolved full r1.sessionId⟩]
      | none => []
    ((processNext now { r1 with currentItem := none, fullText := "" }).1, outs)

/-- Embeds the close handler installed in ensureProcess: mark the
process dead and clear the buffer; a shutdown exit is silent; a
cancelled exit clears the flag and resumes the queue; otherwise count a
crash, reject the in-flight request, and either resume the queue
(breaker still closed) or reject the whole queue (breaker open). -/
def procClose (now : Nat) (code : Int) (r : Runner) : Runner × List Settlement :=
  let r0 : Runner := { r with processAlive := false, buffer := "" }
  if r.shuttingDown then (r0, [])
  else if r0.cancelling then
    let r1 : Runner := { r0 with cancelling := false }
    if 0 < r1.queue.length then ((processNext now r1).1, []) else (r1, [])
  else
    let r1 : Runner := { r0 with crashCount := r0.crashCount + 1, lastCrashTime := now }
    let curOuts : List Settlement :=
      match r1.currentItem with
      | some item => [⟨item.id, .rejected (.processExit code)⟩]
      | none => []
    let r2 : Runner := { r1 with currentItem := none }
    if 0 < r2.queue.length ∧ r2.crashCount < MAX_CRASHES then
      ((processNext now r2).1, curOuts)
    else if MAX_CRASHES ≤ r2.crashCount then
      ({ r2 with queue := [] },
       curOuts ++ r2.queue.map (fun item => ⟨item.id, .rejected .circuitOpen⟩))
    else (r2, curOuts)

/-- Embeds the per-request timeout callback armed in processNext: if a
request is still in flight, reject it, kill the process, clear the
buffer, and advance the queue. -/
def timeoutFire (now : Nat) (r : Runner) : Runner × List Settlement :=
  match r.currentItem with
  | none => (r, [])
  | some item =>
    let r1 : Runner := { r with currentItem := none }
    let r2 : Runner :=
      if r1.processAlive then { r1 with processAlive := false, buffer := "" } else r1
    ((processNext now r2).1, [⟨item.id, .rejected .timedOut⟩])

/-- Embeds PersistentRunner.cancel: no-op returning false when nothing
is in flight; otherwise reject the in-flight promise, and either kill
the live process under the cancelling flag, or (no process) advance the
queue directly. -/
def Runner.cancel (now : Nat) (r : Runner) : Runner × List Settlement × Bool :=
  match r.currentItem with
  | none => (r, [], false)
  | some item =>
    let outs : List Settlement := [⟨item.id, .rejected .cancelled⟩]
    let r1 : Runner := { r with currentItem := none, fullText := "" }
    if r1.processAlive then
      ({ r1 with cancelling := true, processAlive := false, buffer := "" }, outs, true)
    else
      ((processNext now r1).1, outs, true)

/-- Embeds PersistentRunner.shutdown: the whole body is guarded by
`if (this.process)`, so with no live process handle nothing happens;
otherwise the process is killed and every queued promise, then the
in-flight promise, is rejected with a shutting-down error. -/
def Runner.shutdown (r : Runner) : Runner × List Settlement :=
  if r.processAlive then
    let r1 : Runner := { r with shuttingDown := true, processAlive := false, buffer := "" }
    let outs : List Settlement :=
      r1.queue.map (fun item => ⟨item.id, .rejected .shutdownErr⟩) ++
      (match r1.currentItem with
       | some item => [⟨item.id, .rejected .shutdownErr⟩]
       | none => [])
    ({ r1 with queue := [], currentItem := none }, outs)
  else (r, [])

/-- Embeds getCircuitBreakerStatus: (open, crashCount, lastCrashTime). -/
def getCircuitBreakerStatus (now : Nat) (r : Runner) : Bool × Nat × Nat :=
  (decide (MAX_CRASHES ≤ r.crashCount) && decide (now - r.lastCrashTime < CRASH_WINDOW_MS),
   r.crashCount, r.lastCrashTime)

/-- Modelled from the spec: PersistentRunner.setSessionId is invoked by
RunnerManager.run and RunnerManager.runStream but the method itself is
missing from the copy of src/persistent-runner.ts in this snapshot.
The spec (section 4.2, continuation propagation) says the supplied
continuation token is written into the target Session before
dispatch. -/
def Runner.setSessionId (sid : String) (r : Runner) : Runner :=
  { r with sessionId := sid }

/-! ### Event traces over one session

The single cooperative event loop is modelled by a list of events
applied in order.  Timer firings and process close events are delivered
by the environment; allowing them in any state over-approximates the
set of real schedules. -/

inductive REv where
  | runReq (now : Nat) (prompt : String)
  | runStreamReq (now : Nat) (prompt : String)
  | sysInit (sid : String)
  | assistantText (t : String)
  | resultMsg (now : Nat) (sid : Option String) (isErr : Bool) (res : String)
  | procClosed (now : Nat) (code : Int)
  | timerFired (now : Nat)
  | cancelReq (now : Nat)
  | shutdownReq
  deriving Repr, DecidableEq

def stepR : REv → Runner → Runner × List Settlement
  | .runReq now p, r => Runner.run now p r
  | .runStreamReq now p, r => Runner.runStream now p r
  | .sysInit sid, r => (handleSystemInit sid r, [])
  | .assistantText t, r => (handleAssistantText t r, [])
  | .resultMsg now sid ie res, r => handleResult now sid ie res r
  | .procClosed now code, r => procClose now code r
  | .timerFired now, r => timeoutFire now r
  | .cancelReq now, r => ((Runner.cancel now r).1, (Runner.cancel now r).2.1)
  | .shutdownReq, r => Runner.shutdown r

def execR : List REv → Runner → Runner × List Settlement
  | [], r => (r, [])
  | e :: es, r =>
    let p := stepR e r
    let q := execR es p.1
    (q.1, p.2 ++ q.2)

/-- Decides that the circuit breaker stays closed before every step of
the trace and at its end. -/
def breakerAlwaysClosed : List REv → Runner → Bool
  | [], r => decide (r.crashCount < MAX_CRASHES)
  | e :: es, r => decide (r.crashCount < MAX_CRASHES) && breakerAlwaysClosed es (stepR e r).1

/-! ### Circuit breaker (claim C4) -/

/-- C4: once the crash counter has reached 3 and the last crash is less
than 60000 ms old, a dispatch that needs a process rejects with a
circuit-open error and does not spawn; a spawn attempt made at least
60000 ms after the last crash resets the counter to zero and
proceeds. -/
theorem circuitBreaker_blocks_then_resets
    (r : Runner) (now now2 : Nat) (p : String)
    (halive : r.processAlive = false) (hcur : r.currentItem = none)
    (hcount : MAX_CRASHES ≤ r.crashCount)
    (hopen : now - r.lastCrashTime < CRASH_WINDOW_MS)
    (hcool : CRASH_WINDOW_MS ≤ now2 - r.lastCrashTime) :
    ensureProcess now r = .error () ∧
    (Runner.run now p r).1.processAlive = false ∧
    (Runner.run now p r).2 = [⟨r.nextId, .rejected .circuitOpen⟩] ∧
    ∃ r', ensureProcess now2 r = .ok r' ∧ r'.crashCount = 0 ∧ r'.processAlive = true := by
  have hep : ensureProcess now r = .error () := by
    simp [ensureProcess, halive, hcount, hopen]
  refine ⟨hep, ?_, ?_, ?_⟩
  · unfold Runner.run
    cases hq : r.queue with
    | nil =>
      simp [processNext, hcur, hq, ensureProcess, halive, hcount, hopen]
    | cons a as =>
      simp [processNext, hcur, hq, ensureProcess, halive, hcount, hopen]
  · unfold Runner.run
    cases hq : r.queue with
    | nil =>
      simp [processNext, hcur, hq, ensureProcess, halive, hcount, hopen]
    | cons a as =>
      simp [processNext, hcur, hq, ensureProcess, halive, hcount, hopen]
  · refine ⟨{ r with crashCount := 0, processAlive := true }, ?_, rfl, rfl⟩
    have : ¬ now2 - r.lastCrashTime < CRASH_WINDOW_MS := by omega
    simp [ensureProcess, halive, hcount, this]

def c4Runner : Runner := { initialRunner with crashCount := 3, lastCrashTime := 1000 }

theorem circuitBreaker_blocks_then_resets_witness :
    ensureProcess 2000 c4Runner = .error () ∧
    (Runner.run 2000 "x" c4Runner).1.processAlive = false ∧
    (Runner.run 2000 "x" c4Runner).2 = [⟨c4Runner.nextId, .rejected .circuitOpen⟩] ∧
    ∃ r', ensureProcess 70000 c4Runner = .ok r' ∧ r'.crashCount = 0 ∧ r'.processAlive = true :=
  circuitBreaker_blocks_then_resets c4Runner 2000 70000 "x" rfl rfl (by decide) (by decide)
    (by decide)

/-! ### Cancellation (claim C6) -/

/-- C6: cancel with nothing in flight returns false and changes no
state; cancel with an in-flight request and a live process returns
true, rejects exactly that promise with a cancellation error, and
leaves the queued requests in the queue (the process respawns on the
next dispatch). -/
theorem cancel_spec
    (r1 r2 : Runner) (now : Nat) (i : QueueItem)
    (h1 : r1.currentItem = none)
    (h2 : r2.currentItem = some i) (halive : r2.processAlive = true) :
    Runner.cancel now r1 = (r1, [], false) ∧
    (Runner.cancel now r2).2.2 = true ∧
    (Runner.cancel now r2).2.1 = [⟨i.id, .rejected .cancelled⟩] ∧
    (Runner.cancel now r2).1.queue = r2.queue ∧
    (Runner.cancel now r2).1.cancelling = true ∧
    (Runner.cancel now r2).1.processAlive = false := by
  constructor
  · unfold Runner.cancel
    rw [h1]
  · unfold Runner.cancel
    rw [h2]
    simp [halive]

def c6Runner : Runner :=
  { initialRunner with
    currentItem := some ⟨0, "a"⟩, queue := [⟨1, "b"⟩], processAlive := true, nextId := 2 }

theorem cancel_spec_witness :
    Runner.cancel 5 initialRunner = (initialRunner, [], false) ∧
    (Runner.cancel 5 c6Runner).2.2 = true ∧
    (Runner.cancel 5 c6Runner).2.1 = [⟨(0 : Nat), .rejected .cancelled⟩] ∧
    (Runner.cancel 5 c6Runner).1.queue = c6Runner.queue ∧
    (Runner.cancel 5 c6Runner).1.cancelling = true ∧
    (Runner.cancel 5 c6Runner).1.processAlive = false :=
  cancel_spec initialRunner c6Runner 5 ⟨0, "a"⟩ rfl rfl rfl

/-! ### Shutdown (claim C5) -/

/-- C5 counterexample: after run, run, cancel (before the close event
of the killed process is delivered) the session holds one queued
request and no process; shutdown then settles nothing and leaves the
queue intact, although the claim says every queued request is rejected
whether or not a process is alive.  Moreover, after a shutdown the
runner still accepts and dispatches new work. -/
theorem shutdown_claim_counterexample :
    ((execR [.runReq 0 "a", .runReq 0 "b", .cancelReq 0] initialRunner).1.queue =
        [⟨1, "b"⟩] ∧
      (execR [.runReq 0 "a", .runReq 0 "b", .cancelReq 0] initialRunner).1.processAlive = false ∧
      Runner.shutdown (execR [.runReq 0 "a", .runReq 0 "b", .cancelReq 0] initialRunner).1 =
        ((execR [.runReq 0 "a", .runReq 0 "b", .cancelReq 0] initialRunner).1, [])) ∧
    ((execR [.runReq 0 "a", .shutdownReq, .runReq 1 "b"] initialRunner).1.currentItem =
        some ⟨1, "b"⟩ ∧
      (execR [.runReq 0 "a", .shutdownReq, .runReq 1 "b"] initialRunner).1.processAlive = true) := by
  decide

/-- C5 amended: shutdown with a live process kills it, rejects every
queued and then the in-flight promise with a shutting-down error, and
clears the queue; with no live process shutdown is a no-op that leaves
queued requests unsettled. -/
theorem shutdown_drains_only_with_process
    (r1 r2 : Runner) (halive : r1.processAlive = true) (hdead : r2.processAlive = false) :
    (Runner.shutdown r1).1.processAlive = false ∧
    (Runner.shutdown r1).1.shuttingDown = true ∧
    (Runner.shutdown r1).1.queue = [] ∧
    (Runner.shutdown r1).1.currentItem = none ∧
    (Runner.shutdown r1).2 =
      r1.queue.map (fun item => ⟨item.id, .rejected .shutdownErr⟩) ++
        (match r1.currentItem with
         | some item => [⟨item.id, .rejected .shutdownErr⟩]
         | none => []) ∧
    Runner.shutdown r2 = (r2, []) := by
  unfold Runner.shutdown
  simp [halive, hdead]

theorem shutdown_drains_only_with_process_witness :
    (Runner.shutdown c6Runner).1.processAlive = false ∧
    (Runner.shutdown c6Runner).1.shuttingDown = true ∧
    (Runner.shutdown c6Runner).1.queue = [] ∧
    (Runner.shutdown c6Runner).1.currentItem = none ∧
    (Runner.shutdown c6Runner).2 =
      c6Runner.queue.map (fun item => ⟨item.id, .rejected .shutdownErr⟩) ++
        (match c6Runner.currentItem with
         | some item => [⟨item.id, .rejected .shutdownErr⟩]
         | none => []) ∧
    Runner.shutdown initialRunner = (initialRunner, []) :=
  shutdown_drains_only_with_process c6Runner initialRunner rfl rfl

/-! ### Timeouts feed the circuit breaker (claim C10) -/

def threeTimeoutTrace : List REv :=
  [.runReq 0 "p1", .timerFired 1, .procClosed 2 143,
   .runReq 3 "p2", .timerFired 4, .procClosed 5 143,
   .runReq 6 "p3", .timerFired 7, .procClosed 8 143]

/-- C10: a firing request timeout kills the process without touching
the shuttingDown and cancelling flags, so the subsequent close event
increments the crash counter and stamps lastCrashTime exactly as an
unexpected crash does; three timeouts inside the 60 second window
therefore open the circuit breaker. -/
theorem timeout_counts_as_crash
    (r : Runner) (now nowc : Nat) (code : Int) (i : QueueItem)
    (hcur : r.currentItem = some i) (halive : r.processAlive = true)
    (hsd : r.shuttingDown = false) (hcl : r.cancelling = false)
    (hq : r.queue = []) :
    (timeoutFire now r).1.shuttingDown = false ∧
    (timeoutFire now r).1.cancelling = false ∧
    (timeoutFire now r).1.processAlive = false ∧
    (timeoutFire now r).2 = [⟨i.id, .rejected .timedOut⟩] ∧
    (procClose nowc code (timeoutFire now r).1).1.crashCount = r.crashCount + 1 ∧
    (procClose nowc code (timeoutFire now r).1).1.lastCrashTime = nowc ∧
    (execR threeTimeoutTrace initialRunner).1.crashCount = 3 ∧
    (getCircuitBreakerStatus 9 (execR threeTimeoutTrace initialRunner).1).1 = true := by
  have htf : timeoutFire now r =
      ({ r with currentItem := none, processAlive := false, buffer := "" },
       [⟨i.id, .rejected .timedOut⟩]) := by
    unfold timeoutFire
    rw [hcur]
    simp [halive, processNext, hq]
  refine ⟨by rw [htf]; exact hsd, by rw [htf]; exact hcl, by rw [htf], by rw [htf], ?_, ?_,
    by decide, by decide⟩
  · rw [htf]
    unfold procClose
    simp [hsd, hcl, hq]
  · rw [htf]
    unfold procClose
    simp [hsd, hcl, hq]

/-! ### FIFO settlement order (claim C7)

Requests are numbered by `nextId` in enqueue order.  The invariant:
the ids of already settled promises, followed by the id of the
in-flight request and the ids of the queue, enumerate `range nextId`
in order.  It is preserved by every event except shutdown (which
rejects the queue before the in-flight request), as long as the
breaker stays closed. -/

def idsOf (r : Runner) : List Nat :=
  (r.currentItem.map QueueItem.id).toList ++ r.queue.map QueueItem.id

def SessionInv (outIds : List Nat) (r : Runner) : Prop :=
  outIds ++ idsOf r = List.range r.nextId

theorem ensureProcess_ok_fields (now : Nat) (r r' : Runner)
    (h : ensureProcess now r = .ok r') :
    r'.queue = r.queue ∧ r'.currentItem = r.currentItem ∧ r'.nextId = r.nextId ∧
    r'.shuttingDown = r.shuttingDown ∧ r'.cancelling = r.cancelling ∧
    r'.sessionId = r.sessionId := by
  unfold ensureProcess at h
  split at h
  · cases h; exact ⟨rfl, rfl, rfl, rfl, rfl, rfl⟩
  · split at h
    · split at h
      · cases h
      · cases h; exact ⟨rfl, rfl, rfl, rfl, rfl, rfl⟩
    · cases h; exact ⟨rfl, rfl, rfl, rfl, rfl, rfl⟩

theorem processNext_fields (now : Nat) (r : Runner) :
    idsOf (processNext now r).1 = idsOf r ∧ (processNext now r).1.nextId = r.nextId := by
  unfold processNext
  cases hc : r.currentItem with
  | some i => exact ⟨rfl, rfl⟩
  | none =>
    cases hq : r.queue with
    | nil => exact ⟨rfl, rfl⟩
    | cons a as =>
      cases he : ensureProcess now { r with currentItem := some a, queue := as, fullText := "" } with
      | ok r2 =>
        obtain ⟨h1, h2, h3, _, _, _⟩ :=
          ensureProcess_ok_fields now { r with currentItem := some a, queue := as, fullText := "" } r2 he
        simp [idsOf, h1, h2, h3, hc, hq, he]
      | error e =>
        simp [idsOf, hc, hq, he]

theorem processNext_sessionId (now : Nat) (r : Runner) :
    (processNext now r).1.sessionId = r.sessionId := by
  unfold processNext
  cases hc : r.currentItem with
  | some i => rfl
  | none =>
    cases hq : r.queue with
    | nil => rfl
    | cons a as =>
      cases he : ensureProcess now { r with currentItem := some a, queue := as, fullText := "" } with
      | ok r2 =>
        obtain ⟨_, _, _, _, _, h6⟩ :=
          ensureProcess_ok_fields now { r with currentItem := some a, queue := as, fullText := "" } r2 he
        simp [h6, he]
      | error e =>
        simp [he]

theorem run_preserves_sessionId (now : Nat) (p : String) (r : Runner) :
    (Runner.run now p r).1.sessionId = r.sessionId := by
  unfold Runner.run
  dsimp only
  have h := processNext_sessionId now
    { r with queue := r.queue ++ [⟨r.nextId, p⟩], nextId := r.nextId + 1 }
  split <;> exact h

theorem processNext_noThrow (now : Nat) (r : Runner)
    (h : r.crashCount < MAX_CRASHES) : (processNext now r).2 = false := by
  unfold processNext
  cases hc : r.currentItem with
  | some i => rfl
  | none =>
    cases hq : r.queue with
    | nil => rfl
    | cons a as =>
      cases he : ensureProcess now { r with currentItem := some a, queue := as, fullText := "" } with
      | ok r2 => simp [hc, hq, he]
      | error e =>
        exfalso
        unfold ensureProcess at he
        split at he
        · cases he
        · split at he
          · next hcnt =>
            exact absurd hcnt (by simpa using Nat.not_le.mpr h)
          · cases he

theorem sessionInv_processNext (now : Nat) (r : Runner) (outIds : List Nat)
    (h : SessionInv outIds r) : SessionInv outIds (processNext now r).1 := by
  unfold SessionInv at h ⊢
  rw [(processNext_fields now r).1, (processNext_fields now r).2]
  exact h

theorem sessionInv_settle_current (outIds : List Nat) (r r' : Runner) (i : QueueItem)
    (hcur : r.currentItem = some i) (hinv : SessionInv outIds r)
    (hq : r'.queue = r.queue) (hc : r'.currentItem = none) (hn : r'.nextId = r.nextId) :
    SessionInv (outIds ++ [i.id]) r' := by
  unfold SessionInv idsOf at hinv ⊢
  rw [hq, hc, hn]
  rw [hcur] at hinv
  simp only [Option.map_some', Option.toList_some, Option.map_none', Option.toList_none,
    List.nil_append] at hinv ⊢
  simpa [List.append_assoc] using hinv

theorem sessionInv_fields (outIds : List Nat) (r r' : Runner)
    (hq : r'.queue = r.queue) (hc : r'.currentItem = r.currentItem)
    (hn : r'.nextId = r.nextId) (hinv : SessionInv outIds r) :
    SessionInv outIds r' := by
  unfold SessionInv idsOf at hinv ⊢
  rw [hq, hc, hn]
  exact hinv

theorem sessionInv_settle_generic (outIds : List Nat) (r r' : Runner) (outs : List Settlement)
    (houts : outs.map Settlement.id = (r.currentItem.map QueueItem.id).toList)
    (hq : r'.queue = r.queue) (hc : r'.currentItem = none) (hn : r'.nextId = r.nextId)
    (hinv : SessionInv outIds r) :
    SessionInv (outIds ++ outs.map Settlement.id) r' := by
  unfold SessionInv idsOf at hinv ⊢
  rw [houts, hq, hc, hn]
  simpa [List.append_assoc] using hinv

theorem sessionInv_drain (outIds : List Nat) (r r' : Runner) (outs : List Settlement)
    (houts : outs.map Settlement.id = idsOf r)
    (hq : r'.queue = []) (hc : r'.currentItem = none) (hn : r'.nextId = r.nextId)
    (hinv : SessionInv outIds r) :
    SessionInv (outIds ++ outs.map Settlement.id) r' := by
  have h2 : idsOf r' = [] := by
    unfold idsOf
    rw [hq, hc]
    rfl
  unfold SessionInv at hinv ⊢
  rw [houts, hn, h2]
  simpa [List.append_assoc] using hinv

theorem run_preserves_inv (now : Nat) (p : String) (r : Runner) (outIds : List Nat)
    (hcc : r.crashCount < MAX_CRASHES) (hinv : SessionInv outIds r) :
    SessionInv (outIds ++ (Runner.run now p r).2.map Settlement.id) (Runner.run now p r).1 := by
  have hpush : SessionInv outIds
      { r with queue := r.queue ++ [⟨r.nextId, p⟩], nextId := r.nextId + 1 } := by
    unfold SessionInv idsOf at hinv ⊢
    simp only [List.map_append, List.map_cons, List.map_nil, List.range_succ]
    rw [← hinv]
    simp [List.append_assoc]
  have hf := processNext_noThrow now
      { r with queue := r.queue ++ [⟨r.nextId, p⟩], nextId := r.nextId + 1 } (by simpa using hcc)
  unfold Runner.run
  dsimp only
  rw [hf]
  simpa using sessionInv_processNext now _ outIds hpush

theorem runStream_eq_run : @Runner.runStream = @Runner.run := rfl

theorem handleResult_preserves_inv (now : Nat) (sid : Option String) (ie : Bool) (res : String)
    (r : Runner) (outIds : List Nat) (hinv : SessionInv outIds r) :
    SessionInv (outIds ++ (handleResult now sid ie res r).2.map Settlement.id)
      (handleResult now sid ie res r).1 := by
  unfold handleResult
  cases sid with
  | none =>
    cases ie with
    | false =>
      dsimp only
      exact sessionInv_processNext now _ _
        (sessionInv_settle_generic outIds r _ _
          (by cases hcur : r.currentItem <;> simp [hcur]) rfl rfl rfl hinv)
    | true =>
      dsimp only
      exact sessionInv_processNext now _ _
        (sessionInv_settle_generic outIds r _ _
          (by cases hcur : r.currentItem <;> simp [hcur]) rfl rfl rfl hinv)
  | some s =>
    by_cases hs : s = "" <;>
      cases ie <;>
        · simp only [hs, if_true, if_false, Bool.false_eq_true, Bool.true_eq_false]
          exact sessionInv_processNext now _ _
            (sessionInv_settle_generic outIds r _ _
              (by cases hcur : r.currentItem <;> simp [hcur]) rfl rfl rfl hinv)

theorem procClose_shuttingDown_eq (now : Nat) (code : Int) (pa : Bool) (q : List QueueItem)
    (cur : Option QueueItem) (buf sid ft : String) (cl : Bool) (cc lct nid : Nat) :
    procClose now code ⟨pa, q, cur, buf, sid, ft, true, cl, cc, lct, nid⟩ =
      (⟨false, q, cur, "", sid, ft, true, cl, cc, lct, nid⟩, []) := rfl

theorem procClose_cancelling_eq (now : Nat) (code : Int) (pa : Bool) (q : List QueueItem)
    (cur : Option QueueItem) (buf sid ft : String) (cc lct nid : Nat) :
    procClose now code ⟨pa, q, cur, buf, sid, ft, false, true, cc, lct, nid⟩ =
      (if 0 < q.length then
        ((processNext now ⟨false, q, cur, "", sid, ft, false, false, cc, lct, nid⟩).1, [])
       else (⟨false, q, cur, "", sid, ft, false, false, cc, lct, nid⟩, [])) := rfl

theorem procClose_crash_eq (now : Nat) (code : Int) (pa : Bool) (q : List QueueItem)
    (cur : Option QueueItem) (buf sid ft : String) (cc lct nid : Nat) :
    procClose now code ⟨pa, q, cur, buf, sid, ft, false, false, cc, lct, nid⟩ =
      (if 0 < q.length ∧ cc + 1 < MAX_CRASHES then
        ((processNext now ⟨false, q, none, "", sid, ft, false, false, cc + 1, now, nid⟩).1,
         match cur with
         | some item => [⟨item.id, .rejected (.processExit code)⟩]
         | none => [])
       else if MAX_CRASHES ≤ cc + 1 then
        (⟨false, [], none, "", sid, ft, false, false, cc + 1, now, nid⟩,
         (match cur with
          | some item => [⟨item.id, .rejected (.processExit code)⟩]
          | none => []) ++ q.map (fun item => ⟨item.id, .rejected .circuitOpen⟩))
       else (⟨false, q, none, "", sid, ft, false, false, cc + 1, now, nid⟩,
         match cur with
         | some item => [⟨item.id, .rejected (.processExit code)⟩]
         | none => [])) := rfl

theorem procClose_preserves_inv (now : Nat) (code : Int) (r : Runner) (outIds : List Nat)
    (hinv : SessionInv outIds r) :
    SessionInv (outIds ++ (procClose now code r).2.map Settlement.id) (procClose now code r).1 := by
  obtain ⟨pa, q, cur, buf, sid, ft, sd, cl, cc, lct, nid⟩ := r
  cases sd with
  | true =>
    rw [procClose_shuttingDown_eq]
    simp only [List.map_nil, List.append_nil]
    exact sessionInv_fields outIds _ _ rfl rfl rfl hinv
  | false =>
    cases cl with
    | true =>
      rw [procClose_cancelling_eq]
      split
      · simp only [List.map_nil, List.append_nil]
        exact sessionInv_processNext now _ outIds (sessionInv_fields outIds _ _ rfl rfl rfl hinv)
      · simp only [List.map_nil, List.append_nil]
        exact sessionInv_fields outIds _ _ rfl rfl rfl hinv
    | false =>
      rw [procClose_crash_eq]
      cases cur with
      | none =>
        split
        · simp only [List.map_nil, List.append_nil]
          exact sessionInv_processNext now _ outIds (sessionInv_fields outIds _ _ rfl rfl rfl hinv)
        · split
          · exact sessionInv_drain outIds ⟨pa, q, none, buf, sid, ft, false, false, cc, lct, nid⟩
              _ _ (by simp [idsOf]) rfl rfl rfl hinv
          · simp only [List.map_nil, List.append_nil]
            exact sessionInv_fields outIds _ _ rfl rfl rfl hinv
      | some i =>
        split
        · exact sessionInv_processNext now _ _
            (sessionInv_settle_current outIds _ _ i rfl hinv rfl rfl rfl)
        · split
          · exact sessionInv_drain outIds ⟨pa, q, some i, buf, sid, ft, false, false, cc, lct, nid⟩
              _ _ (by simp [idsOf]) rfl rfl rfl hinv
          · exact sessionInv_settle_current outIds _ _ i rfl hinv rfl rfl rfl

theorem timeoutFire_preserves_inv (now : Nat) (r : Runner) (outIds : List Nat)
    (hinv : SessionInv outIds r) :
    SessionInv (outIds ++ (timeoutFire now r).2.map Settlement.id) (timeoutFire now r).1 := by
  unfold timeoutFire
  cases hcur : r.currentItem with
  | none => simpa using hinv
  | some i =>
    dsimp only
    refine sessionInv_processNext now _ _ ?_
    split
    · exact sessionInv_settle_current outIds r _ i hcur hinv rfl rfl rfl
    · exact sessionInv_settle_current outIds r _ i hcur hinv rfl rfl rfl

theorem cancel_preserves_inv (now : Nat) (r : Runner) (outIds : List Nat)
    (hinv : SessionInv outIds r) :
    SessionInv (outIds ++ (Runner.cancel now r).2.1.map Settlement.id) (Runner.cancel now r).1 := by
  unfold Runner.cancel
  cases hcur : r.currentItem with
  | none => simpa using hinv
  | some i =>
    dsimp only
    split
    · exact sessionInv_settle_current outIds r _ i hcur hinv rfl rfl rfl
    · exact sessionInv_processNext now _ _
        (sessionInv_settle_current outIds r _ i hcur hinv rfl rfl rfl)

theorem stepR_preserves_inv (e : REv) (r : Runner) (outIds : List Nat)
    (hno : e ≠ .shutdownReq) (hcc : r.crashCount < MAX_CRASHES)
    (hinv : SessionInv outIds r) :
    SessionInv (outIds ++ (stepR e r).2.map Settlement.id) (stepR e r).1 := by
  cases e with
  | runReq now p => exact run_preserves_inv now p r outIds hcc hinv
  | runStreamReq now p =>
    simp only [stepR, runStream_eq_run]
    exact run_preserves_inv now p r outIds hcc hinv
  | sysInit sid =>
    simp only [stepR, List.map_nil, List.append_nil]
    unfold handleSystemInit
    split
    · exact hinv
    · exact sessionInv_fields outIds r _ rfl rfl rfl hinv
  | assistantText t =>
    simp only [stepR, List.map_nil, List.append_nil]
    unfold handleAssistantText
    split
    · exact hinv
    · exact sessionInv_fields outIds r _ rfl rfl rfl hinv
  | resultMsg now sid ie res => exact handleResult_preserves_inv now sid ie res r outIds hinv
  | procClosed now code => exact procClose_preserves_inv now code r outIds hinv
  | timerFired now => exact timeoutFire_preserves_inv now r outIds hinv
  | cancelReq now => exact cancel_preserves_inv now r outIds hinv
  | shutdownReq => exact absurd rfl hno

theorem execR_preserves_inv (evs : List REv) (r : Runner) (outIds : List Nat)
    (hno : REv.shutdownReq ∉ evs) (hcc : breakerAlwaysClosed evs r = true)
    (hinv : SessionInv outIds r) :
    SessionInv (outIds ++ (execR evs r).2.map Settlement.id) (execR evs r).1 := by
  induction evs generalizing r outIds with
  | nil => simpa [execR] using hinv
  | cons e es ih =>
    simp only [breakerAlwaysClosed, Bool.and_eq_true, decide_eq_true_eq] at hcc
    have hstep := stepR_preserves_inv e r outIds
      (fun h => hno (h ▸ List.mem_cons_self e es)) hcc.1 hinv
    have hrest := ih (stepR e r).1 (outIds ++ (stepR e r).2.map Settlement.id)
      (fun h => hno (List.mem_cons_of_mem e h)) hcc.2 hstep
    simpa [execR, List.append_assoc] using hrest

/-- C7 amended: in every reachable state there is at most one in-flight
request (currentItem holds zero or one item), and over any event trace
in which the circuit breaker stays closed and shutdown does not occur,
the promises settle strictly in enqueue order.  Shutdown is excluded
because it rejects queued promises before the in-flight one. -/
theorem settlements_in_enqueue_order (evs : List REv)
    (hno : REv.shutdownReq ∉ evs)
    (hcc : breakerAlwaysClosed evs initialRunner = true) :
    ((execR evs initialRunner).1.currentItem.toList.length ≤ 1) ∧
    List.Pairwise (· < ·) ((execR evs initialRunner).2.map Settlement.id) := by
  constructor
  · cases (execR evs initialRunner).1.currentItem <;> simp
  · have hinv0 : SessionInv [] initialRunner := by
      unfold SessionInv idsOf initialRunner
      simp
    have h := execR_preserves_inv evs initialRunner [] hno hcc hinv0
    unfold SessionInv at h
    simp only [List.nil_append] at h
    have hpw : List.Pairwise (· < ·)
        ((execR evs initialRunner).2.map Settlement.id ++ idsOf (execR evs initialRunner).1) := by
      rw [h]
      exact List.pairwise_lt_range _
    exact (List.pairwise_append.mp hpw).1

def c7Trace : List REv :=
  [.runReq 0 "a", .resultMsg 1 (some "s") false "ok", .runReq 2 "b", .timerFired 3,
   .procClosed 4 1, .runReq 5 "c", .resultMsg 6 none false "done"]

theorem settlements_in_enqueue_order_witness :
    ((execR c7Trace initialRunner).1.currentItem.toList.length ≤ 1) ∧
    List.Pairwise (· < ·) ((execR c7Trace initialRunner).2.map Settlement.id) :=
  settlements_in_enqueue_order c7Trace (by decide) (by decide)

/-- C7 counterexample: with two requests, one in flight and one queued,
a shutdown settles the queued promise before the in-flight one, so the
settlement order [1, 0] is not the enqueue order even though the
breaker stayed closed the whole time. -/
theorem settlements_order_counterexample :
    breakerAlwaysClosed [.runReq 0 "a", .runReq 0 "b", .shutdownReq] initialRunner = true ∧
    (execR [.runReq 0 "a", .runReq 0 "b", .shutdownReq] initialRunner).2.map Settlement.id =
      [1, 0] ∧
    ¬ List.Pairwise (· < ·)
        ((execR [.runReq 0 "a", .runReq 0 "b", .shutdownReq] initialRunner).2.map
          Settlement.id) := by
  have hmap : (execR [.runReq 0 "a", .runReq 0 "b", .shutdownReq] initialRunner).2.map
      Settlement.id = [1, 0] := by decide
  refine ⟨by decide, hmap, ?_⟩
  rw [hmap]
  intro hpw
  have := List.rel_of_pairwise_cons hpw (List.mem_singleton.mpr rfl)
  omega

def c10Runner : Runner :=
  { initialRunner with currentItem := some ⟨0, "p"⟩, processAlive := true, nextId := 1 }

theorem timeout_counts_as_crash_witness :
    (timeoutFire 5 c10Runner).1.shuttingDown = false ∧
    (timeoutFire 5 c10Runner).1.cancelling = false ∧
    (timeoutFire 5 c10Runner).1.processAlive = false ∧
    (timeoutFire 5 c10Runner).2 = [⟨(0 : Nat), .rejected .timedOut⟩] ∧
    (procClose 6 9 (timeoutFire 5 c10Runner).1).1.crashCount = c10Runner.crashCount + 1 ∧
    (procClose 6 9 (timeoutFire 5 c10Runner).1).1.lastCrashTime = 6 ∧
    (execR threeTimeoutTrace initialRunner).1.crashCount = 3 ∧
    (getCircuitBreakerStatus 9 (execR threeTimeoutTrace initialRunner).1).1 = true :=
  timeout_counts_as_crash c10Runner 5 6 9 ⟨0, "p"⟩ rfl rfl rfl rfl rfl

/-! ## Session pool (src/runner-manager.ts, RunnerManager)

A JS Map iterates in insertion order and `set` on a present key (and
mutation of the stored entry object) updates in place, so the pool is
embedded as an association list: hits update the entry in place,
creations append, deletions erase the (unique) entry with the key. -/

structure PoolEntry where
  runner : Runner
  lastUsed : Nat
  deriving Repr, DecidableEq

structure Manager where
  pool : List (String × PoolEntry)
  maxProcesses : Nat
  idleTimeoutMs : Nat
  deriving Repr, DecidableEq

def DEFAULT_CHANNEL : String := "__default__"

def initialManager (maxProcesses idleTimeoutMs : Nat) : Manager :=
  ⟨[], maxProcesses, idleTimeoutMs⟩

/-- Embeds RunOptions (the fields the pool consults). -/
structure RunOpts where
  channelId : Option String
  sessionId : Option String
  deriving Repr, DecidableEq

def poolGet (p : List (String × PoolEntry)) (k : String) : Option PoolEntry :=
  (p.find? (fun e => e.1 == k)).map (·.2)

/-- Models in-place mutation of the entry stored under a key. -/
def poolUpdate (p : List (String × PoolEntry)) (k : String) (f : PoolEntry → PoolEntry) :
    List (String × PoolEntry) :=
  p.map (fun e => if e.1 == k then (e.1, f e.2) else e)

def poolDelete (p : List (String × PoolEntry)) (k : String) : List (String × PoolEntry) :=
  p.eraseP (fun e => e.1 == k)

/-- Embeds the scan in evictLRU: linear fold keeping the first entry
with a strictly smaller lastUsed (oldestTime starts at Infinity, so the
first entry is always taken). -/
def findOldest (p : List (String × PoolEntry)) : Option (String × Nat) :=
  p.foldl (fun acc e =>
    match acc with
    | none => some (e.1, e.2.lastUsed)
    | some kt => if e.2.lastUsed < kt.2 then some (e.1, e.2.lastUsed) else some kt) none

/-- Embeds evictLRU: shut the oldest runner down and delete its entry.
The source guards the eviction with the truthiness test
`if (oldestChannel)`, which is false both for null (empty pool) and for
the empty-string channel key, so an empty-string LRU key is never
evicted. -/
def evictLRU (m : Manager) : Manager × List Settlement :=
  match findOldest m.pool with
  | none => (m, [])
  | some kt =>
    if kt.1 = "" then (m, [])
    else
      match poolGet m.pool kt.1 with
      | none => (m, [])
      | some e => ({ m with pool := poolDelete m.pool kt.1 }, (Runner.shutdown e.runner).2)

/-- Embeds getOrCreateRunner: a hit refreshes lastUsed; a miss evicts
the LRU entry when the pool is at capacity and appends a fresh runner
with lastUsed = now. -/
def getOrCreateRunner (now : Nat) (k : String) (m : Manager) : Manager × List Settlement :=
  match poolGet m.pool k with
  | some _ => ({ m with pool := poolUpdate m.pool k (fun e0 => { e0 with lastUsed := now }) }, [])
  | none =>
    let me := if m.maxProcesses ≤ m.pool.length then evictLRU m else (m, [])
    ({ me.1 with pool := me.1.pool ++ [(k, ⟨initialRunner, now⟩)] }, me.2)

/-- Embeds cleanupIdle: entries whose idle duration strictly exceeds
idleTimeoutMs are shut down and removed (collect-then-delete over
distinct keys equals one filter pass). -/
def cleanupIdle (now : Nat) (m : Manager) : Manager × List Settlement :=
  (({ m with pool :=
      m.pool.filter (fun e => ! decide (m.idleTimeoutMs < now - e.2.lastUsed)) }),
   (m.pool.filter (fun e => decide (m.idleTimeoutMs < now - e.2.lastUsed))).flatMap
     (fun e => (Runner.shutdown e.2.runner).2))

/-- Embeds the token write before dispatch in RunnerManager.run and
runStream: `if (options.sessionId) runner.setSessionId(options.sessionId)`. -/
def dispatchRunner (sid : Option String) (r : Runner) : Runner :=
  match sid with
  | some s => Runner.setSessionId s r
  | none => r

/-- Embeds RunnerManager.run: resolve the channel, get or create its
runner, write a supplied continuation token into it, then dispatch. -/
def managerRun (now : Nat) (prompt : String) (opts : RunOpts) (m : Manager) :
    Manager × List Settlement :=
  let k := opts.channelId.getD DEFAULT_CHANNEL
  let gc := getOrCreateRunner now k m
  match poolGet gc.1.pool k with
  | none => gc
  | some e =>
    let rr := Runner.run now prompt (dispatchRunner opts.sessionId e.runner)
    ({ gc.1 with pool := poolUpdate gc.1.pool k (fun e0 => { e0 with runner := rr.1 }) },
     gc.2 ++ rr.2)

/-- Embeds RunnerManager.runStream: same pool behaviour as run. -/
def managerRunStream (now : Nat) (prompt : String) (opts : RunOpts) (m : Manager) :
    Manager × List Settlement :=
  let k := opts.channelId.getD DEFAULT_CHANNEL
  let gc := getOrCreateRunner now k m
  match poolGet gc.1.pool k with
  | none => gc
  | some e =>
    let rr := Runner.runStream now prompt (dispatchRunner opts.sessionId e.runner)
    ({ gc.1 with pool := poolUpdate gc.1.pool k (fun e0 => { e0 with runner := rr.1 }) },
     gc.2 ++ rr.2)

/-- Embeds RunnerManager.destroy. -/
def managerDestroy (k : String) (m : Manager) : (Manager × List Settlement) × Bool :=
  match poolGet m.pool k with
  | some e => (({ m with pool := poolDelete m.pool k }, (Runner.shutdown e.runner).2), true)
  | none => ((m, []), false)

/-- Embeds RunnerManager.shutdown. -/
def managerShutdown (m : Manager) : Manager × List Settlement :=
  ({ m with pool := [] }, m.pool.flatMap (fun e => (Runner.shutdown e.2.runner).2))

inductive MOp where
  | run (now : Nat) (prompt : String) (opts : RunOpts)
  | runStream (now : Nat) (prompt : String) (opts : RunOpts)
  | destroy (k : String)
  | cleanup (now : Nat)
  | shutdown
  deriving Repr, DecidableEq

def stepM : MOp → Manager → Manager × List Settlement
  | .run now p o, m => managerRun now p o m
  | .runStream now p o, m => managerRunStream now p o m
  | .destroy k, m => (managerDestroy k m).1
  | .cleanup now, m => cleanupIdle now m
  | .shutdown, m => managerShutdown m

def execM : List MOp → Manager → Manager
  | [], m => m
  | op :: ops, m => execM ops (stepM op m).1

/-- Decides that an operation addresses the pool under the empty-string
channel id (`channelId: ""` survives the nullish coalescing with the
default key and becomes a real pool key). -/
def MOp.usesEmptyKey : MOp → Bool
  | .run _ _ o => o.channelId == some ""
  | .runStream _ _ o => o.channelId == some ""
  | _ => false

/-! ### Association list lemmas for the pool -/

theorem poolGet_cons (e : String × PoolEntry) (p : List (String × PoolEntry)) (k : String) :
    poolGet (e :: p) k = if e.1 == k then some e.2 else poolGet p k := by
  unfold poolGet
  rw [List.find?_cons]
  by_cases h : (e.1 == k) = true <;> simp [h]

theorem poolGet_update_self (p : List (String × PoolEntry)) (k : String)
    (f : PoolEntry → PoolEntry) :
    poolGet (poolUpdate p k f) k = (poolGet p k).map f := by
  induction p with
  | nil => rfl
  | cons e p ih =>
    unfold poolUpdate
    rw [List.map_cons]
    by_cases h : (e.1 == k) = true
    · rw [poolGet_cons, poolGet_cons]
      simp [h]
    · rw [poolGet_cons, poolGet_cons]
      simp only [h, if_false, Bool.false_eq_true]
      exact ih

theorem poolGet_of_mem_nodup (p : List (String × PoolEntry))
    (hnd : (p.map Prod.fst).Nodup) (k : String) (e : PoolEntry)
    (hmem : (k, e) ∈ p) : poolGet p k = some e := by
  induction p with
  | nil => cases hmem
  | cons a p ih =>
    rw [List.map_cons, List.nodup_cons] at hnd
    rw [poolGet_cons]
    rcases List.mem_cons.mp hmem with h | h
    · rw [← h]
      simp
    · have hk : k ∈ p.map Prod.fst := List.mem_map.mpr ⟨(k, e), h, rfl⟩
      have ha : ¬ (a.1 == k) = true := by
        simp only [beq_iff_eq]
        intro hEq
        exact hnd.1 (hEq ▸ hk)
      rw [if_neg ha]
      exact ih hnd.2 h

theorem poolGet_none_not_mem (p : List (String × PoolEntry)) (k : String)
    (h : poolGet p k = none) : ∀ e ∈ p, (e : String × PoolEntry).1 ≠ k := by
  unfold poolGet at h
  simp only [Option.map_eq_none'] at h
  intro e he
  have := List.find?_eq_none.mp h e he
  simpa using this

theorem poolGet_ne_none_of_mem (p : List (String × PoolEntry)) (k : String) (e : PoolEntry)
    (hmem : (k, e) ∈ p) : poolGet p k ≠ none := by
  intro h
  exact poolGet_none_not_mem p k h (k, e) hmem rfl

theorem poolUpdate_keys (p : List (String × PoolEntry)) (k : String)
    (f : PoolEntry → PoolEntry) :
    (poolUpdate p k f).map Prod.fst = p.map Prod.fst := by
  unfold poolUpdate
  rw [List.map_map]
  exact List.map_congr_left (fun e _ => by
    by_cases h : (e.1 == k) = true
    · show (if e.1 == k then (e.1, f e.2) else e).1 = e.1
      rw [if_pos h]
    · show (if e.1 == k then (e.1, f e.2) else e).1 = e.1
      rw [if_neg h])

theorem poolUpdate_length (p : List (String × PoolEntry)) (k : String)
    (f : PoolEntry → PoolEntry) : (poolUpdate p k f).length = p.length := by
  unfold poolUpdate
  rw [List.length_map]

theorem poolDelete_sublist (p : List (String × PoolEntry)) (k : String) :
    List.Sublist (poolDelete p k) p := List.eraseP_sublist p

theorem poolDelete_length_of_mem (p : List (String × PoolEntry)) (k : String) (e : PoolEntry)
    (hmem : (k, e) ∈ p) : (poolDelete p k).length = p.length - 1 := by
  unfold poolDelete
  exact List.length_eraseP_of_mem hmem (by simp)

/-! ### findOldest lemmas -/

theorem findOldest_go_some (p : List (String × PoolEntry)) :
    ∀ kt : String × Nat,
      p.foldl (fun acc e =>
        match acc with
        | none => some (e.1, e.2.lastUsed)
        | some kt => if e.2.lastUsed < kt.2 then some (e.1, e.2.lastUsed) else some kt)
        (some kt) ≠ none := by
  induction p with
  | nil => intro kt h; cases h
  | cons a p ih =>
    intro kt
    rw [List.foldl_cons]
    by_cases h : a.2.lastUsed < kt.2 <;> simp only [h, if_true, if_false] <;> apply ih

theorem findOldest_ne_none (p : List (String × PoolEntry)) (h : p ≠ []) :
    findOldest p ≠ none := by
  cases p with
  | nil => exact absurd rfl h
  | cons a p =>
    unfold findOldest
    rw [List.foldl_cons]
    exact findOldest_go_some p (a.1, a.2.lastUsed)

theorem findOldest_go_mem (p : List (String × PoolEntry)) :
    ∀ (acc : Option (String × Nat)) (k : String) (t : Nat),
      p.foldl (fun acc e =>
        match acc with
        | none => some (e.1, e.2.lastUsed)
        | some kt => if e.2.lastUsed < kt.2 then some (e.1, e.2.lastUsed) else some kt)
        acc = some (k, t) →
      acc = some (k, t) ∨ ∃ e : PoolEntry, (k, e) ∈ p ∧ e.lastUsed = t := by
  induction p with
  | nil => intro acc k t h; exact Or.inl (by simpa using h)
  | cons a p ih =>
    intro acc k t h
    rw [List.foldl_cons] at h
    rcases ih _ k t h with h2 | h2
    · cases acc with
      | none =>
        simp only [Option.some.injEq, Prod.mk.injEq] at h2
        refine Or.inr ⟨a.2, ?_, h2.2⟩
        rw [← h2.1]
        exact List.mem_cons_self a p
      | some kt =>
        by_cases hlt : a.2.lastUsed < kt.2
        · simp only [hlt, if_true, Option.some.injEq, Prod.mk.injEq] at h2
          refine Or.inr ⟨a.2, ?_, h2.2⟩
          rw [← h2.1]
          exact List.mem_cons_self a p
        · simp only [hlt, if_false] at h2
          exact Or.inl h2
    · exact Or.inr ⟨h2.choose, List.mem_cons_of_mem a h2.choose_spec.1, h2.choose_spec.2⟩

theorem findOldest_go_min (p : List (String × PoolEntry)) :
    ∀ (acc : Option (String × Nat)) (k : String) (t : Nat),
      p.foldl (fun acc e =>
        match acc with
        | none => some (e.1, e.2.lastUsed)
        | some kt => if e.2.lastUsed < kt.2 then some (e.1, e.2.lastUsed) else some kt)
        acc = some (k, t) →
      (∀ e ∈ p, t ≤ (e : String × PoolEntry).2.lastUsed) ∧
      (∀ k0 t0, acc = some (k0, t0) → t ≤ t0) := by
  induction p with
  | nil =>
    intro acc k t h
    refine ⟨by simp, fun k0 t0 ha => ?_⟩
    rw [ha] at h
    simp only [List.foldl_nil, Option.some.injEq, Prod.mk.injEq] at h
    omega
  | cons a p ih =>
    intro acc k t h
    rw [List.foldl_cons] at h
    obtain ⟨hp, hacc⟩ := ih _ k t h
    cases acc with
    | none =>
      have hhead : t ≤ a.2.lastUsed := hacc a.1 a.2.lastUsed rfl
      refine ⟨fun e he => ?_, fun k0 t0 ha => by cases ha⟩
      rcases List.mem_cons.mp he with h3 | h3
      · rw [h3]; exact hhead
      · exact hp e h3
    | some kt =>
      by_cases hlt : a.2.lastUsed < kt.2
      · simp only [hlt, if_true] at h hacc
        have hhead : t ≤ a.2.lastUsed := hacc a.1 a.2.lastUsed rfl
        refine ⟨fun e he => ?_, fun k0 t0 ha => ?_⟩
        · rcases List.mem_cons.mp he with h3 | h3
          · rw [h3]; exact hhead
          · exact hp e h3
        · cases ha
          omega
      · simp only [hlt, if_false] at h hacc
        have hkt : t ≤ kt.2 := hacc kt.1 kt.2 rfl
        refine ⟨fun e he => ?_, fun k0 t0 ha => ?_⟩
        · rcases List.mem_cons.mp he with h3 | h3
          · rw [h3]; omega
          · exact hp e h3
        · cases ha
          exact hkt

theorem findOldest_mem (p : List (String × PoolEntry)) (k : String) (t : Nat)
    (h : findOldest p = some (k, t)) : ∃ e : PoolEntry, (k, e) ∈ p ∧ e.lastUsed = t := by
  unfold findOldest at h
  rcases findOldest_go_mem p none k t h with h2 | h2
  · cases h2
  · exact h2

theorem findOldest_min (p : List (String × PoolEntry)) (k : String) (t : Nat)
    (h : findOldest p = some (k, t)) :
    ∀ e ∈ p, t ≤ (e : String × PoolEntry).2.lastUsed := by
  unfold findOldest at h
  exact (findOldest_go_min p none k t h).1

/-! ### Pool capacity invariant and LRU eviction (claim C3) -/

def PoolInv (m : Manager) : Prop :=
  (m.pool.map Prod.fst).Nodup ∧ m.pool.length ≤ m.maxProcesses ∧
  "" ∉ m.pool.map Prod.fst

theorem evict_at_capacity (m : Manager) (k : String) (now : Nat)
    (hnd : (m.pool.map Prod.fst).Nodup)
    (hnoempty : "" ∉ m.pool.map Prod.fst)
    (hmiss : poolGet m.pool k = none)
    (hone : 1 ≤ m.maxProcesses)
    (hfull : m.maxProcesses ≤ m.pool.length) :
    ∃ (ek : String) (ee : PoolEntry), (ek, ee) ∈ m.pool ∧
      (∀ e ∈ m.pool, ee.lastUsed ≤ (e : String × PoolEntry).2.lastUsed) ∧
      (getOrCreateRunner now k m).1.pool =
        poolDelete m.pool ek ++ [(k, ⟨initialRunner, now⟩)] ∧
      (getOrCreateRunner now k m).2 = (Runner.shutdown ee.runner).2 ∧
      (getOrCreateRunner now k m).1.pool.length = m.pool.length := by
  have hne : m.pool ≠ [] := by
    intro h0
    rw [h0] at hfull
    simp only [List.length_nil] at hfull
    omega
  obtain ⟨kt, hkt⟩ := Option.ne_none_iff_exists'.mp (findOldest_ne_none m.pool hne)
  obtain ⟨ee, hmem, hlu⟩ := findOldest_mem m.pool kt.1 kt.2 (by rw [hkt])
  have hget : poolGet m.pool kt.1 = some ee := poolGet_of_mem_nodup m.pool hnd kt.1 ee hmem
  have hmin : ∀ e ∈ m.pool, ee.lastUsed ≤ (e : String × PoolEntry).2.lastUsed := by
    intro e he
    rw [hlu]
    exact findOldest_min m.pool kt.1 kt.2 (by rw [hkt]) e he
  have hkey : kt.1 ≠ "" := by
    intro h0
    exact hnoempty (h0 ▸ List.mem_map.mpr ⟨(kt.1, ee), hmem, rfl⟩)
  have hev : evictLRU m =
      ({ m with pool := poolDelete m.pool kt.1 }, (Runner.shutdown ee.runner).2) := by
    unfold evictLRU
    simp only [hkt, hget, if_neg hkey]
  have hg : getOrCreateRunner now k m =
      ({ m with pool := poolDelete m.pool kt.1 ++ [(k, ⟨initialRunner, now⟩)] },
       (Runner.shutdown ee.runner).2) := by
    unfold getOrCreateRunner
    rw [hmiss]
    dsimp only
    rw [if_pos hfull, hev]
  refine ⟨kt.1, ee, hmem, hmin, by rw [hg], by rw [hg], ?_⟩
  rw [hg]
  have hdel := poolDelete_length_of_mem m.pool kt.1 ee hmem
  have hlen1 : 1 ≤ m.pool.length := le_trans hone hfull
  simp only [List.length_append, List.length_cons, List.length_nil, hdel]
  omega

theorem evictLRU_fields (m : Manager) :
    (evictLRU m).1.maxProcesses = m.maxProcesses ∧
    (evictLRU m).1.idleTimeoutMs = m.idleTimeoutMs := by
  unfold evictLRU
  cases h1 : findOldest m.pool with
  | none => exact ⟨rfl, rfl⟩
  | some kt =>
    by_cases hk : kt.1 = ""
    · simp [h1, hk]
    · cases h2 : poolGet m.pool kt.1 with
      | none => simp [h1, h2, hk]
      | some e => simp [h1, h2, hk]

theorem evictLRU_pool_sublist (m : Manager) : List.Sublist (evictLRU m).1.pool m.pool := by
  unfold evictLRU
  cases h1 : findOldest m.pool with
  | none => exact List.Sublist.refl _
  | some kt =>
    by_cases hk : kt.1 = ""
    · simp only [h1, if_pos hk]
      exact List.Sublist.refl _
    · cases h2 : poolGet m.pool kt.1 with
      | none =>
        simp only [h1, h2, if_neg hk]
        exact List.Sublist.refl _
      | some e =>
        simp only [h1, h2, if_neg hk]
        exact poolDelete_sublist m.pool kt.1

theorem poolGet_none_sublist (p q : List (String × PoolEntry)) (k : String)
    (hs : List.Sublist q p) (h : poolGet p k = none) : poolGet q k = none := by
  unfold poolGet at h ⊢
  simp only [Option.map_eq_none'] at h ⊢
  rw [List.find?_eq_none] at h ⊢
  exact fun x hx => h x (hs.subset hx)

theorem poolGet_append_single (p : List (String × PoolEntry)) (k : String) (v : PoolEntry)
    (h : poolGet p k = none) : poolGet (p ++ [(k, v)]) k = some v := by
  unfold poolGet at h ⊢
  simp only [Option.map_eq_none'] at h
  rw [List.find?_append, h]
  simp

theorem getOrCreateRunner_get_self (now : Nat) (k : String) (m : Manager) :
    ∃ e, poolGet (getOrCreateRunner now k m).1.pool k = some e := by
  cases hget : poolGet m.pool k with
  | some e =>
    unfold getOrCreateRunner
    rw [hget]
    dsimp only
    rw [poolGet_update_self, hget]
    exact ⟨{ e with lastUsed := now }, rfl⟩
  | none =>
    unfold getOrCreateRunner
    rw [hget]
    dsimp only
    refine ⟨⟨initialRunner, now⟩, ?_⟩
    apply poolGet_append_single
    by_cases hfull : m.maxProcesses ≤ m.pool.length
    · rw [if_pos hfull]
      exact poolGet_none_sublist m.pool _ k (evictLRU_pool_sublist m) hget
    · rw [if_neg hfull]
      exact hget

theorem getOrCreateRunner_inv (now : Nat) (k : String) (m : Manager)
    (hk : k ≠ "") (hone : 1 ≤ m.maxProcesses) (h : PoolInv m) :
    PoolInv (getOrCreateRunner now k m).1 ∧
    (getOrCreateRunner now k m).1.maxProcesses = m.maxProcesses ∧
    (getOrCreateRunner now k m).1.idleTimeoutMs = m.idleTimeoutMs := by
  obtain ⟨hnd, hlen, hne⟩ := h
  cases hget : poolGet m.pool k with
  | some e =>
    unfold getOrCreateRunner
    rw [hget]
    dsimp only
    refine ⟨⟨?_, ?_, ?_⟩, rfl, rfl⟩
    · rw [poolUpdate_keys]
      exact hnd
    · rw [poolUpdate_length]
      exact hlen
    · rw [poolUpdate_keys]
      exact hne
  | none =>
    by_cases hfull : m.maxProcesses ≤ m.pool.length
    · obtain ⟨ek, ee, hmem, hmin, hpool, houts, hlen2⟩ :=
        evict_at_capacity m k now hnd hne hget hone hfull
      have hfields : (getOrCreateRunner now k m).1.maxProcesses = m.maxProcesses ∧
          (getOrCreateRunner now k m).1.idleTimeoutMs = m.idleTimeoutMs := by
        unfold getOrCreateRunner
        rw [hget]
        dsimp only
        rw [if_pos hfull]
        exact ⟨(evictLRU_fields m).1, (evictLRU_fields m).2⟩
      refine ⟨⟨?_, ?_, ?_⟩, hfields.1, hfields.2⟩
      · rw [hpool, List.map_append]
        refine List.nodup_append.mpr ⟨?_, by simp, ?_⟩
        · exact hnd.sublist ((poolDelete_sublist m.pool ek).map Prod.fst)
        · intro a ha hb
          simp only [List.map_cons, List.map_nil, List.mem_singleton] at hb
          subst hb
          obtain ⟨e2, he2, he2k⟩ := List.mem_map.mp ha
          exact poolGet_none_not_mem m.pool a hget e2
            ((poolDelete_sublist m.pool ek).subset he2) he2k
      · rw [hfields.1, hlen2]
        exact hlen
      · rw [hpool, List.map_append]
        intro hmm
        rcases List.mem_append.mp hmm with h1 | h1
        · exact hne (((poolDelete_sublist m.pool ek).map Prod.fst).subset h1)
        · simp only [List.map_cons, List.map_nil, List.mem_singleton] at h1
          exact hk h1.symm
    · have hg : getOrCreateRunner now k m =
          ({ m with pool := m.pool ++ [(k, ⟨initialRunner, now⟩)] }, []) := by
        unfold getOrCreateRunner
        rw [hget]
        dsimp only
        rw [if_neg hfull]
      rw [hg]
      refine ⟨⟨?_, ?_, ?_⟩, rfl, rfl⟩
      · rw [List.map_append]
        refine List.nodup_append.mpr ⟨hnd, by simp, ?_⟩
        intro a ha hb
        simp only [List.map_cons, List.map_nil, List.mem_singleton] at hb
        subst hb
        obtain ⟨e2, he2, he2k⟩ := List.mem_map.mp ha
        exact poolGet_none_not_mem m.pool a hget e2 he2 he2k
      · simp only [List.length_append, List.length_cons, List.length_nil]
        omega
      · show "" ∉ (m.pool ++ [(k, (⟨initialRunner, now⟩ : PoolEntry))]).map Prod.fst
        rw [List.map_append]
        intro hmm
        rcases List.mem_append.mp hmm with h1 | h1
        · exact hne h1
        · simp only [List.map_cons, List.map_nil, List.mem_singleton] at h1
          exact hk h1.symm

theorem poolInv_poolUpdate (m' : Manager) (k : String) (f : PoolEntry → PoolEntry)
    (h : PoolInv m') : PoolInv { m' with pool := poolUpdate m'.pool k f } := by
  refine ⟨?_, ?_, ?_⟩
  · show ((poolUpdate m'.pool k f).map Prod.fst).Nodup
    rw [poolUpdate_keys]
    exact h.1
  · show (poolUpdate m'.pool k f).length ≤ m'.maxProcesses
    rw [poolUpdate_length]
    exact h.2.1
  · show "" ∉ (poolUpdate m'.pool k f).map Prod.fst
    rw [poolUpdate_keys]
    exact h.2.2

theorem managerRun_inv (now : Nat) (prompt : String) (opts : RunOpts) (m : Manager)
    (hch : opts.channelId ≠ some "") (hone : 1 ≤ m.maxProcesses) (h : PoolInv m) :
    PoolInv (managerRun now prompt opts m).1 ∧
    (managerRun now prompt opts m).1.maxProcesses = m.maxProcesses := by
  have hk : opts.channelId.getD DEFAULT_CHANNEL ≠ "" := by
    cases hc0 : opts.channelId with
    | none =>
      simp only [Option.getD_none]
      decide
    | some s =>
      simp only [Option.getD_some]
      intro h0
      exact hch (by rw [hc0, h0])
  obtain ⟨hgi, hmax, _⟩ :=
    getOrCreateRunner_inv now (opts.channelId.getD DEFAULT_CHANNEL) m hk hone h
  unfold managerRun
  dsimp only
  cases hget : poolGet (getOrCreateRunner now (opts.channelId.getD DEFAULT_CHANNEL) m).1.pool
      (opts.channelId.getD DEFAULT_CHANNEL) with
  | none => exact ⟨hgi, hmax⟩
  | some e => exact ⟨poolInv_poolUpdate _ _ _ hgi, hmax⟩

theorem managerRunStream_inv (now : Nat) (prompt : String) (opts : RunOpts) (m : Manager)
    (hch : opts.channelId ≠ some "") (hone : 1 ≤ m.maxProcesses) (h : PoolInv m) :
    PoolInv (managerRunStream now prompt opts m).1 ∧
    (managerRunStream now prompt opts m).1.maxProcesses = m.maxProcesses := by
  have hk : opts.channelId.getD DEFAULT_CHANNEL ≠ "" := by
    cases hc0 : opts.channelId with
    | none =>
      simp only [Option.getD_none]
      decide
    | some s =>
      simp only [Option.getD_some]
      intro h0
      exact hch (by rw [hc0, h0])
  obtain ⟨hgi, hmax, _⟩ :=
    getOrCreateRunner_inv now (opts.channelId.getD DEFAULT_CHANNEL) m hk hone h
  unfold managerRunStream
  dsimp only
  cases hget : poolGet (getOrCreateRunner now (opts.channelId.getD DEFAULT_CHANNEL) m).1.pool
      (opts.channelId.getD DEFAULT_CHANNEL) with
  | none => exact ⟨hgi, hmax⟩
  | some e => exact ⟨poolInv_poolUpdate _ _ _ hgi, hmax⟩

theorem stepM_inv (op : MOp) (m : Manager) (hop : MOp.usesEmptyKey op = false)
    (hone : 1 ≤ m.maxProcesses) (h : PoolInv m) :
    PoolInv (stepM op m).1 ∧ (stepM op m).1.maxProcesses = m.maxProcesses := by
  cases op with
  | run now p o =>
    simp only [MOp.usesEmptyKey] at hop
    exact managerRun_inv now p o m (by simpa using hop) hone h
  | runStream now p o =>
    simp only [MOp.usesEmptyKey] at hop
    exact managerRunStream_inv now p o m (by simpa using hop) hone h
  | destroy k =>
    show PoolInv (managerDestroy k m).1.1 ∧
      (managerDestroy k m).1.1.maxProcesses = m.maxProcesses
    unfold managerDestroy
    cases hget : poolGet m.pool k with
    | none => exact ⟨h, rfl⟩
    | some e =>
      dsimp only
      refine ⟨⟨?_, ?_, ?_⟩, rfl⟩
      · exact h.1.sublist ((poolDelete_sublist m.pool k).map Prod.fst)
      · exact le_trans (List.length_eraseP_le m.pool) h.2.1
      · intro hmm
        exact h.2.2 (((poolDelete_sublist m.pool k).map Prod.fst).subset hmm)
  | cleanup now =>
    show PoolInv (cleanupIdle now m).1 ∧
      (cleanupIdle now m).1.maxProcesses = m.maxProcesses
    unfold cleanupIdle
    dsimp only
    refine ⟨⟨?_, ?_, ?_⟩, rfl⟩
    · exact h.1.sublist ((List.filter_sublist m.pool).map Prod.fst)
    · exact le_trans (List.length_filter_le _ m.pool) h.2.1
    · intro hmm
      exact h.2.2 (((List.filter_sublist m.pool).map Prod.fst).subset hmm)
  | shutdown =>
    show PoolInv (managerShutdown m).1 ∧
      (managerShutdown m).1.maxProcesses = m.maxProcesses
    unfold managerShutdown
    exact ⟨⟨by simp, by simp, by simp⟩, rfl⟩

theorem execM_inv (ops : List MOp) (m : Manager)
    (hops : ∀ op ∈ ops, MOp.usesEmptyKey op = false)
    (hone : 1 ≤ m.maxProcesses) (h : PoolInv m) :
    PoolInv (execM ops m) ∧ (execM ops m).maxProcesses = m.maxProcesses := by
  induction ops generalizing m with
  | nil => exact ⟨h, rfl⟩
  | cons op ops ih =>
    obtain ⟨h1, h2⟩ := stepM_inv op m (hops op (List.mem_cons_self op ops)) hone h
    obtain ⟨h3, h4⟩ := ih (stepM op m).1 (fun op2 h5 => hops op2 (List.mem_cons_of_mem op h5))
      (by rw [h2]; exact hone) h1
    exact ⟨h3, h4.trans h2⟩

def c3CexOps : List MOp :=
  [.run 0 "p1" ⟨some "", none⟩, .run 1000 "p2" ⟨some "B", none⟩,
   .run 2000 "p3" ⟨some "C", none⟩]

/-- C3 counterexample: the empty-string channel id survives the
nullish coalescing with the default key and becomes a real pool key.
When that key is the LRU pick, the truthiness guard
`if (oldestChannel)` in evictLRU skips the eviction, yet
getOrCreateRunner still appends the new entry: with capacity 2, the
three dispatches to channels "", "B", "C" leave three entries in the
pool (nothing was evicted and no runner was shut down), violating both
the capacity bound and the one-eviction behaviour the claim states. -/
theorem pool_bound_counterexample :
    (execM c3CexOps (initialManager 2 1800000)).pool.map Prod.fst = ["", "B", "C"] ∧
    ¬ (execM c3CexOps (initialManager 2 1800000)).pool.length ≤ 2 ∧
    (getOrCreateRunner 2000 "C"
        (execM [MOp.run 0 "p1" ⟨some "", none⟩, MOp.run 1000 "p2" ⟨some "B", none⟩]
          (initialManager 2 1800000))).2 = [] := by
  decide

/-- C3 amended: over every sequence of pool operations starting from an
empty pool with capacity maxP at least 1, provided no operation uses
the empty-string channel id, the pool never holds more than maxP
entries (and its keys stay distinct); and a request for a key not in a
pool whose keys are distinct, nonempty strings, while the pool is at
capacity, evicts exactly one entry, one whose lastUsed is minimal,
shutting down its runner, before the new entry is appended (the pool
keeps its size).  When the LRU pick is the empty-string key, the
truthiness guard of the source skips the eviction and the insert
exceeds the capacity. -/
theorem pool_bounded_and_evicts_lru
    (ops : List MOp) (maxP idleT : Nat) (m : Manager) (k : String) (now : Nat)
    (hmaxP : 1 ≤ maxP)
    (hops : ∀ op ∈ ops, MOp.usesEmptyKey op = false)
    (hone : 1 ≤ m.maxProcesses)
    (hnd : (m.pool.map Prod.fst).Nodup)
    (hnoempty : "" ∉ m.pool.map Prod.fst)
    (hmiss : poolGet m.pool k = none)
    (hfull : m.maxProcesses ≤ m.pool.length) :
    (execM ops (initialManager maxP idleT)).pool.length ≤ maxP ∧
    ((execM ops (initialManager maxP idleT)).pool.map Prod.fst).Nodup ∧
    ∃ (ek : String) (ee : PoolEntry), (ek, ee) ∈ m.pool ∧
      (∀ e ∈ m.pool, ee.lastUsed ≤ (e : String × PoolEntry).2.lastUsed) ∧
      (getOrCreateRunner now k m).1.pool =
        poolDelete m.pool ek ++ [(k, ⟨initialRunner, now⟩)] ∧
      (getOrCreateRunner now k m).2 = (Runner.shutdown ee.runner).2 ∧
      (getOrCreateRunner now k m).1.pool.length = m.pool.length := by
  have h0 : PoolInv (initialManager maxP idleT) :=
    ⟨by simp [initialManager], by simp [initialManager], by simp [initialManager]⟩
  obtain ⟨⟨hndE, hlenE, _⟩, hmaxE⟩ := execM_inv ops (initialManager maxP idleT) hops hmaxP h0
  refine ⟨?_, hndE, evict_at_capacity m k now hnd hnoempty hmiss hone hfull⟩
  rw [hmaxE] at hlenE
  exact hlenE

def c3Ops : List MOp :=
  [.run 0 "m1" ⟨some "A", none⟩, .run 1000 "m2" ⟨some "B", none⟩,
   .run 2000 "m3" ⟨some "C", none⟩]

def c3Manager : Manager :=
  ⟨[("A", ⟨initialRunner, 0⟩), ("B", ⟨initialRunner, 1000⟩)], 2, 1800000⟩

theorem pool_bounded_and_evicts_lru_witness :
    (execM c3Ops (initialManager 2 1800000)).pool.length ≤ 2 ∧
    ((execM c3Ops (initialManager 2 1800000)).pool.map Prod.fst).Nodup ∧
    ∃ (ek : String) (ee : PoolEntry), (ek, ee) ∈ c3Manager.pool ∧
      (∀ e ∈ c3Manager.pool, ee.lastUsed ≤ (e : String × PoolEntry).2.lastUsed) ∧
      (getOrCreateRunner 2000 "C" c3Manager).1.pool =
        poolDelete c3Manager.pool ek ++ [("C", ⟨initialRunner, 2000⟩)] ∧
      (getOrCreateRunner 2000 "C" c3Manager).2 = (Runner.shutdown ee.runner).2 ∧
      (getOrCreateRunner 2000 "C" c3Manager).1.pool.length = c3Manager.pool.length :=
  pool_bounded_and_evicts_lru c3Ops 2 1800000 c3Manager "C" 2000
    (by decide) (by decide) (by decide) (by decide) (by decide) (by decide) (by decide)

/-! ### Continuation token propagation (claim C2) -/

/-- C2: for every pool dispatch (run or runStream) with a supplied
continuation token, the target entry exists after resolve-or-create,
the token is written into its runner by setSessionId before the request
is dispatched (the runner passed to the dispatch is
`Runner.setSessionId sid e.runner`, whose sessionId reads back as the
token), the dispatch preserves the token, and the final pool stores
exactly the result of dispatching on that token-carrying runner. -/
theorem continuation_token_written_before_dispatch
    (now : Nat) (prompt : String) (ch : Option String) (sid : String) (m : Manager) :
    ∃ e : PoolEntry,
      poolGet (getOrCreateRunner now (ch.getD DEFAULT_CHANNEL) m).1.pool
        (ch.getD DEFAULT_CHANNEL) = some e ∧
      (Runner.setSessionId sid e.runner).sessionId = sid ∧
      (Runner.run now prompt (Runner.setSessionId sid e.runner)).1.sessionId = sid ∧
      (managerRun now prompt ⟨ch, some sid⟩ m).1.pool =
        poolUpdate (getOrCreateRunner now (ch.getD DEFAULT_CHANNEL) m).1.pool
          (ch.getD DEFAULT_CHANNEL)
          (fun e0 => { e0 with
            runner := (Runner.run now prompt (Runner.setSessionId sid e.runner)).1 }) ∧
      (managerRunStream now prompt ⟨ch, some sid⟩ m).1.pool =
        poolUpdate (getOrCreateRunner now (ch.getD DEFAULT_CHANNEL) m).1.pool
          (ch.getD DEFAULT_CHANNEL)
          (fun e0 => { e0 with
            runner := (Runner.runStream now prompt (Runner.setSessionId sid e.runner)).1 }) := by
  obtain ⟨e, he⟩ := getOrCreateRunner_get_self now (ch.getD DEFAULT_CHANNEL) m
  refine ⟨e, he, ?_, ?_, ?_, ?_⟩
  · rfl
  · rw [run_preserves_sessionId]
    rfl
  · unfold managerRun
    dsimp only
    rw [he]
    rfl
  · unfold managerRunStream
    dsimp only
    rw [he]
    rfl

/-! ### Idle sweep and idle-clock reset (claim C9) -/

/-- C9: the idle sweep never removes an entry whose idle duration does
not exceed idleTimeoutMs, and every cache hit of run or runStream
leaves the entry for the key with lastUsed equal to the current time. -/
theorem idle_sweep_and_hit_refresh
    (m : Manager) (now np : Nat) (k : String) (e : PoolEntry)
    (ch : Option String) (sidOpt : Option String) (prompt : String) (ehit : PoolEntry)
    (hmem : (k, e) ∈ m.pool) (hidle : now - e.lastUsed ≤ m.idleTimeoutMs)
    (hhit : poolGet m.pool (ch.getD DEFAULT_CHANNEL) = some ehit) :
    (k, e) ∈ (cleanupIdle now m).1.pool ∧
    (∃ e2, poolGet (managerRun np prompt ⟨ch, sidOpt⟩ m).1.pool
        (ch.getD DEFAULT_CHANNEL) = some e2 ∧ e2.lastUsed = np) ∧
    (∃ e2, poolGet (managerRunStream np prompt ⟨ch, sidOpt⟩ m).1.pool
        (ch.getD DEFAULT_CHANNEL) = some e2 ∧ e2.lastUsed = np) := by
  have hg : getOrCreateRunner np (ch.getD DEFAULT_CHANNEL) m =
      ({ m with pool := poolUpdate m.pool (ch.getD DEFAULT_CHANNEL) (fun e0 => { e0 with lastUsed := np }) }, []) := by
    unfold getOrCreateRunner
    rw [hhit]
  have hpg : poolGet (getOrCreateRunner np (ch.getD DEFAULT_CHANNEL) m).1.pool
      (ch.getD DEFAULT_CHANNEL) = some { ehit with lastUsed := np } := by
    rw [hg]
    show poolGet (poolUpdate m.pool (ch.getD DEFAULT_CHANNEL) (fun e0 => { e0 with lastUsed := np })) (ch.getD DEFAULT_CHANNEL) = _
    rw [poolGet_update_self, hhit]
    rfl
  refine ⟨?_, ?_, ?_⟩
  · unfold cleanupIdle
    dsimp only
    apply List.mem_filter.mpr
    refine ⟨hmem, ?_⟩
    simp only [Bool.not_eq_true', decide_eq_false_iff_not, not_lt]
    exact hidle
  · unfold managerRun
    dsimp only
    rw [hpg]
    dsimp only
    rw [poolGet_update_self, hpg]
    exact ⟨_, rfl, rfl⟩
  · unfold managerRunStream
    dsimp only
    rw [hpg]
    dsimp only
    rw [poolGet_update_self, hpg]
    exact ⟨_, rfl, rfl⟩

def c9Manager : Manager :=
  ⟨[("A", ⟨initialRunner, 100⟩), ("B", ⟨initialRunner, 50⟩)], 5, 1000⟩

theorem idle_sweep_and_hit_refresh_witness :
    ("A", (⟨initialRunner, 100⟩ : PoolEntry)) ∈ (cleanupIdle 600 c9Manager).1.pool ∧
    (∃ e2, poolGet (managerRun 700 "hi" ⟨some "B", none⟩ c9Manager).1.pool
        ((some "B").getD DEFAULT_CHANNEL) = some e2 ∧ e2.lastUsed = 700) ∧
    (∃ e2, poolGet (managerRunStream 700 "hi" ⟨some "B", none⟩ c9Manager).1.pool
        ((some "B").getD DEFAULT_CHANNEL) = some e2 ∧ e2.lastUsed = 700) :=
  idle_sweep_and_hit_refresh c9Manager 600 700 "A" ⟨initialRunner, 100⟩
    (some "B") none "hi" ⟨initialRunner, 50⟩ (by decide) (by decide) (by decide)

end Xangi
